import Mathlib

/-!
Verification of the streaming chat response assembler of the Clotho dashboard
(`src/Clotho/src/hooks/useChatbot.ts`, function `sendMessage`).

The embedding models:
* the stateful incremental UTF-8 decoder (`new TextDecoder()` called with
  `{ stream: true }` on every chunk, and never flushed with a final call),
  following the WHATWG UTF-8 decode algorithm that `TextDecoder` implements;
* the chunk-processing loop: each decoded chunk that is non-empty and not
  whitespace-only either creates the assistant message (first time) or is
  appended verbatim to it (`setMessages` with a `map` keyed on the message id);
* the guard `if (!content.trim() || isLoading) return`;
* the catch path: on fetch failure / non-2xx / missing body / read error,
  either append a fresh assistant message holding a fixed apology string, or
  overwrite the content of the already-created assistant message with it.

Text is represented as a list of Unicode code points (`List Nat`); bytes as
`List Nat` with values below 256.  Identifiers and timestamps coming from
`Date.now()` are modelled by a `now : Nat` parameter: the user message gets id
`now`, the assistant message id `now + 1`, mirroring `Date.now().toString()`
and `(Date.now() + 1).toString()` in the source.
-/

namespace Clotho

/-- JavaScript whitespace as used by `String.prototype.trim`:
tab, LF, VT, FF, CR, space, NBSP, Unicode space separators,
line/paragraph separators and the BOM. -/
def isJsWs (c : Nat) : Bool :=
  c = 9 || c = 10 || c = 11 || c = 12 || c = 13 || c = 32 || c = 160 ||
  c = 5760 || (8192 ≤ c && c ≤ 8202) || c = 8232 || c = 8233 || c = 8239 ||
  c = 8287 || c = 12288 || c = 65279

/-- `s.trim()` is non-empty, i.e. the text has at least one non-whitespace
code point.  The source tests `chunk && chunk.trim()`; since a string with a
non-whitespace character is in particular non-empty, this single predicate
captures the whole condition. -/
def hasNonWs (t : List Nat) : Bool := t.any (fun c => !isJsWs c)

/-- `String.prototype.trim`: drop whitespace from both ends. -/
def trimWs (t : List Nat) : List Nat :=
  ((t.dropWhile isJsWs).reverse.dropWhile isJsWs).reverse

/-! ## Incremental UTF-8 decoder (WHATWG `TextDecoder`, non-fatal mode) -/

/-- Decoder carry-over state between chunks: the partially assembled code
point, how many continuation bytes are still needed / were seen, and the
admissible range for the next continuation byte. -/
structure Utf8State where
  codepoint : Nat
  needed : Nat
  seen : Nat
  lower : Nat
  upper : Nat
  deriving Repr, DecidableEq

def Utf8State.init : Utf8State := ⟨0, 0, 0, 128, 191⟩

/-- Handling of a byte in the initial decoder state (no sequence pending):
ASCII is emitted directly, lead bytes open a multi-byte sequence (with the
WHATWG lower/upper boundary adjustments for E0/ED/F0/F4), anything else
yields the replacement character U+FFFD. -/
def utf8Start (b : Nat) : Utf8State × List Nat :=
  if b ≤ 127 then (Utf8State.init, [b])
  else if 194 ≤ b ∧ b ≤ 223 then
    (⟨b % 32, 1, 0, 128, 191⟩, [])
  else if 224 ≤ b ∧ b ≤ 239 then
    (⟨b % 16, 2, 0, if b = 224 then 160 else 128, if b = 237 then 159 else 191⟩, [])
  else if 240 ≤ b ∧ b ≤ 244 then
    (⟨b % 8, 3, 0, if b = 240 then 144 else 128, if b = 244 then 143 else 191⟩, [])
  else (Utf8State.init, [65533])

/-- One byte of the WHATWG UTF-8 decode loop.  A continuation byte outside
the admissible range emits U+FFFD and reprocesses the byte from the initial
state (the prepend-byte-to-stream step of the standard). -/
def utf8Step (s : Utf8State) (b : Nat) : Utf8State × List Nat :=
  if s.needed = 0 then utf8Start b
  else if b < s.lower ∨ s.upper < b then
    let r := utf8Start b
    (r.1, 65533 :: r.2)
  else
    let cp := s.codepoint * 64 + b % 64
    if s.seen + 1 = s.needed then (Utf8State.init, [cp])
    else (⟨cp, s.needed, s.seen + 1, 128, 191⟩, [])

/-- `decoder.decode(chunk, { stream: true })`: run the byte loop over one
chunk, carrying the state; pending bytes of an incomplete sequence stay in
the state and are NOT flushed (the source never performs a final
`decoder.decode()` call). -/
def utf8DecodeChunk (s : Utf8State) : List Nat → Utf8State × List Nat
  | [] => (s, [])
  | b :: bs =>
    let r := utf8Step s b
    let r2 := utf8DecodeChunk r.1 bs
    (r2.1, r.2 ++ r2.2)

/-! ## Data model of the chat state -/

inductive Role where
  | user
  | assistant
  deriving Repr, DecidableEq

structure ChatMessage where
  id : Nat
  role : Role
  content : List Nat
  timestamp : Nat
  deriving Repr, DecidableEq

structure ChatState where
  messages : List ChatMessage
  isLoading : Bool
  isStreaming : Bool
  deriving Repr, DecidableEq

/-- The fixed user-facing apology string from the catch path of
`sendMessage`, as code points. -/
def apologyText : List Nat :=
  ("I apologize, but I encountered an error processing your request. " ++
   "Please try again or contact support if the issue persists.").data.map Char.toNat

/-- Outcome of the transport for one run: either a transport failure before
any chunk is processed (network failure, non-2xx status, missing body), or a
stream of byte chunks followed by either a clean end (`readError = false`)
or a read failure (`readError = true`). -/
inductive FetchResult where
  | fetchError
  | stream (chunks : List (List Nat)) (readError : Bool)
  deriving Repr, DecidableEq

/-! ## The streaming loop -/

/-- One iteration of the `while (true)` read loop, at the level of the
conversation log: decode the chunk with carry-over, and if the decoded text
has a non-whitespace character, either create the assistant message (id
`now + 1`, content the decoded text verbatim) or append the text to the
existing assistant message via a `map` keyed on its id. -/
def streamStep (now : Nat) :
    Utf8State × Option Nat × List ChatMessage → List Nat →
    Utf8State × Option Nat × List ChatMessage
  | (s, aid, log), bytes =>
    let r := utf8DecodeChunk s bytes
    if hasNonWs r.2 then
      match aid with
      | none =>
        (r.1, some (now + 1), log ++ [⟨now + 1, Role.assistant, r.2, now⟩])
      | some a =>
        (r.1, some a,
         log.map (fun m => if m.id = a then { m with content := m.content ++ r.2 } else m))
    else (r.1, aid, log)

/-- The same loop with only the accumulated assistant content (no log):
`none` while no assistant message has been created, `some c` once it exists
with content `c`.  This is the pure pipeline the log-level loop refines. -/
def chunkStep : Utf8State × Option (List Nat) → List Nat → Utf8State × Option (List Nat)
  | (s, acc), bytes =>
    let r := utf8DecodeChunk s bytes
    if hasNonWs r.2 then (r.1, some (acc.getD [] ++ r.2)) else (r.1, acc)

/-- Accumulated assistant-message content after feeding a whole list of byte
chunks through decoder and loop from a fresh run. -/
def pipelineAcc (chunks : List (List Nat)) : Option (List Nat) :=
  (chunks.foldl chunkStep (Utf8State.init, none)).2

/-- The decoded text of each chunk, with the decoder state carried across
chunk boundaries. -/
def decodeTexts (s : Utf8State) : List (List Nat) → List (List Nat)
  | [] => []
  | c :: cs => (utf8DecodeChunk s c).2 :: decodeTexts (utf8DecodeChunk s c).1 cs

/-- The content-accumulation step of the loop, as a function of the decoded
text of one chunk. -/
def accStep (acc : Option (List Nat)) (t : List Nat) : Option (List Nat) :=
  if hasNonWs t then some (acc.getD [] ++ t) else acc

/-- The catch path: with no assistant message yet, append a fresh assistant
message carrying the apology; otherwise overwrite the content of the
assistant message (keyed by id) with the apology. -/
def errorUpdate (now : Nat) (aid : Option Nat) (log : List ChatMessage) :
    List ChatMessage :=
  match aid with
  | none => log ++ [⟨now + 1, Role.assistant, apologyText, now⟩]
  | some a => log.map (fun m => if m.id = a then { m with content := apologyText } else m)

/-- The whole `sendMessage` run as a pure function of the initial state, the
user input, the clock and the transport outcome.  Mirrors the source: guard,
append the trimmed user message, set loading; then stream chunks; the catch
clause funnels every transport failure into `errorUpdate`; the finally
clause clears both flags. -/
def sendMessage (st : ChatState) (content : List Nat) (now : Nat)
    (fr : FetchResult) : ChatState :=
  if !hasNonWs content || st.isLoading then st
  else
    let userMsg : ChatMessage := ⟨now, Role.user, trimWs content, now⟩
    let log1 := st.messages ++ [userMsg]
    match fr with
    | FetchResult.fetchError =>
      ⟨errorUpdate now none log1, false, false⟩
    | FetchResult.stream chunks readError =>
      let r := chunks.foldl (streamStep now) (Utf8State.init, none, log1)
      if readError then ⟨errorUpdate now r.2.1 r.2.2, false, false⟩
      else ⟨r.2.2, false, false⟩

/-- Standard UTF-8 encoder, used to state round-trip properties about
multi-byte characters split across chunks. -/
def utf8Encode (cp : Nat) : List Nat :=
  if cp ≤ 127 then [cp]
  else if cp ≤ 2047 then [192 + cp / 64, 128 + cp % 64]
  else if cp ≤ 65535 then
    [224 + cp / 4096, 128 + (cp / 64) % 64, 128 + cp % 64]
  else
    [240 + cp / 262144, 128 + (cp / 4096) % 64, 128 + (cp / 64) % 64, 128 + cp % 64]

/-! ## Helper notions used by the fold shape lemma -/

/-- Log fragment contributed by the streaming loop: nothing while no content
has arrived, otherwise the single assistant message holding the accumulated
content. -/
def emitMsg (now : Nat) : Option (List Nat) → List ChatMessage
  | none => []
  | some c => [⟨now + 1, Role.assistant, c, now⟩]

/-- Assistant-message id tracked by the loop, as a function of the
accumulated content. -/
def aidOf (now : Nat) : Option (List Nat) → Option Nat
  | none => none
  | some _ => some (now + 1)

/-! ## Decoder lemmas -/

/-- Streaming decode composes over concatenation: decoding `c1 ++ c2` in one
call equals decoding `c1`, carrying the state, then decoding `c2`. -/
lemma utf8DecodeChunk_append (c1 c2 : List Nat) (s : Utf8State) :
    utf8DecodeChunk s (c1 ++ c2) =
      ((utf8DecodeChunk (utf8DecodeChunk s c1).1 c2).1,
       (utf8DecodeChunk s c1).2 ++ (utf8DecodeChunk (utf8DecodeChunk s c1).1 c2).2) := by
  induction c1 generalizing s with
  | nil => simp [utf8DecodeChunk]
  | cons b bs ih =>
    simp only [List.cons_append, utf8DecodeChunk, List.append_eq]
    rw [ih]
    simp [List.append_assoc]

/-! ## Frame lemmas for the log-level loop -/

/-- A `map` that rewrites only the message with id `a` leaves a log without
that id untouched. -/
lemma map_update_id_not_mem (a : Nat) (f : ChatMessage → ChatMessage)
    (log : List ChatMessage) (h : a ∉ log.map (fun m => m.id)) :
    log.map (fun m => if m.id = a then f m else m) = log := by
  induction log with
  | nil => rfl
  | cons m ms ih =>
    simp only [List.map_cons, List.mem_cons] at h
    push_neg at h
    simp only [List.map_cons]
    rw [if_neg (fun e => h.1 e.symm), ih h.2]

lemma streamStep_ws (now : Nat) (s : Utf8State) (aid : Option Nat)
    (log : List ChatMessage) (bytes : List Nat)
    (h : hasNonWs (utf8DecodeChunk s bytes).2 = false) :
    streamStep now (s, aid, log) bytes = ((utf8DecodeChunk s bytes).1, aid, log) := by
  simp [streamStep, h]

lemma streamStep_create (now : Nat) (s : Utf8State) (log : List ChatMessage)
    (bytes : List Nat) (h : hasNonWs (utf8DecodeChunk s bytes).2 = true) :
    streamStep now (s, none, log) bytes =
      ((utf8DecodeChunk s bytes).1, some (now + 1),
       log ++ [⟨now + 1, Role.assistant, (utf8DecodeChunk s bytes).2, now⟩]) := by
  simp [streamStep, h]

lemma streamStep_append_lem (now : Nat) (s : Utf8State) (a : Nat)
    (log : List ChatMessage) (bytes : List Nat)
    (h : hasNonWs (utf8DecodeChunk s bytes).2 = true) :
    streamStep now (s, some a, log) bytes =
      ((utf8DecodeChunk s bytes).1, some a,
       log.map (fun m =>
         if m.id = a then { m with content := m.content ++ (utf8DecodeChunk s bytes).2 }
         else m)) := by
  simp [streamStep, h]

lemma chunkStep_eq (s : Utf8State) (acc : Option (List Nat)) (bytes : List Nat) :
    chunkStep (s, acc) bytes =
      if hasNonWs (utf8DecodeChunk s bytes).2 then
        ((utf8DecodeChunk s bytes).1, some (acc.getD [] ++ (utf8DecodeChunk s bytes).2))
      else ((utf8DecodeChunk s bytes).1, acc) := rfl

/-- One loop iteration at log level refines one iteration of the pure
pipeline: the log stays `log ++ emitMsg now acc` with `acc` the accumulated
content, provided id `now + 1` does not occur in `log`. -/
lemma streamStep_shape (now : Nat) (s : Utf8State) (acc : Option (List Nat))
    (log : List ChatMessage) (c : List Nat)
    (hfresh : (now + 1) ∉ log.map (fun m => m.id)) :
    streamStep now (s, aidOf now acc, log ++ emitMsg now acc) c =
      ((chunkStep (s, acc) c).1, aidOf now (chunkStep (s, acc) c).2,
       log ++ emitMsg now (chunkStep (s, acc) c).2) := by
  by_cases h : hasNonWs (utf8DecodeChunk s c).2
  · cases acc with
    | none =>
      rw [show aidOf now none = none from rfl, show emitMsg now none = [] from rfl,
        List.append_nil, streamStep_create now s log c h, chunkStep_eq]
      simp [h, emitMsg, aidOf]
    | some c0 =>
      rw [show aidOf now (some c0) = some (now + 1) from rfl,
        streamStep_append_lem now s (now + 1) _ c h, chunkStep_eq]
      simp only [h, if_true, List.map_append, emitMsg, aidOf, Option.getD]
      rw [map_update_id_not_mem _ _ _ hfresh]
      simp [emitMsg]
  · have h' : hasNonWs (utf8DecodeChunk s c).2 = false := by simpa using h
    rw [streamStep_ws now s _ _ c h', chunkStep_eq]
    simp [h']

/-- The whole read loop refines the pure pipeline: starting from a fresh run
over `log`, the final log is `log` followed by at most one assistant message
holding the accumulated content of the pipeline. -/
lemma streamFold_shape (now : Nat) (chunks : List (List Nat)) (s : Utf8State)
    (acc : Option (List Nat)) (log : List ChatMessage)
    (hfresh : (now + 1) ∉ log.map (fun m => m.id)) :
    chunks.foldl (streamStep now) (s, aidOf now acc, log ++ emitMsg now acc) =
      ((chunks.foldl chunkStep (s, acc)).1,
       aidOf now (chunks.foldl chunkStep (s, acc)).2,
       log ++ emitMsg now (chunks.foldl chunkStep (s, acc)).2) := by
  induction chunks generalizing s acc with
  | nil => rfl
  | cons c cs ih =>
    rw [List.foldl_cons, List.foldl_cons, streamStep_shape now s acc log c hfresh]
    exact ih (chunkStep (s, acc) c).1 (chunkStep (s, acc) c).2

/-- Specialization of `streamFold_shape` to the actual initial state of a run. -/
lemma streamFold_run (now : Nat) (chunks : List (List Nat)) (log : List ChatMessage)
    (hfresh : (now + 1) ∉ log.map (fun m => m.id)) :
    chunks.foldl (streamStep now) (Utf8State.init, none, log) =
      ((chunks.foldl chunkStep (Utf8State.init, none)).1,
       aidOf now (pipelineAcc chunks),
       log ++ emitMsg now (pipelineAcc chunks)) := by
  have h := streamFold_shape now chunks Utf8State.init none log hfresh
  rw [show aidOf now none = none from rfl, show emitMsg now none = [] from rfl,
    List.append_nil] at h
  rw [h]
  rfl

/-! ## Pointwise decoder lemmas -/

lemma utf8DecodeChunk_nil (s : Utf8State) : utf8DecodeChunk s [] = (s, []) := rfl

lemma utf8DecodeChunk_cons (s : Utf8State) (b : Nat) (bs : List Nat) :
    utf8DecodeChunk s (b :: bs) =
      ((utf8DecodeChunk (utf8Step s b).1 bs).1,
       (utf8Step s b).2 ++ (utf8DecodeChunk (utf8Step s b).1 bs).2) := rfl

lemma utf8Step_clean (s : Utf8State) (b : Nat) (hs : s.needed = 0) :
    utf8Step s b = utf8Start b := by
  simp [utf8Step, hs]

lemma utf8Start_lead2 (b : Nat) (h1 : 194 ≤ b) (h2 : b ≤ 223) :
    utf8Start b = (⟨b % 32, 1, 0, 128, 191⟩, []) := by
  unfold utf8Start
  rw [if_neg (by omega), if_pos ⟨h1, h2⟩]

lemma utf8Start_lead3 (b : Nat) (h1 : 224 ≤ b) (h2 : b ≤ 239) :
    utf8Start b = (⟨b % 16, 2, 0, if b = 224 then 160 else 128,
      if b = 237 then 159 else 191⟩, []) := by
  unfold utf8Start
  rw [if_neg (by omega), if_neg (by omega), if_pos ⟨h1, h2⟩]

lemma utf8Start_lead4 (b : Nat) (h1 : 240 ≤ b) (h2 : b ≤ 244) :
    utf8Start b = (⟨b % 8, 3, 0, if b = 240 then 144 else 128,
      if b = 244 then 143 else 191⟩, []) := by
  unfold utf8Start
  rw [if_neg (by omega), if_neg (by omega), if_neg (by omega), if_pos ⟨h1, h2⟩]

/-- A continuation byte within the admissible range either finishes the
sequence (emitting the assembled code point) or extends the pending state. -/
lemma utf8Step_cont (st : Utf8State) (b : Nat) (hn : st.needed ≠ 0)
    (hlo : st.lower ≤ b) (hhi : b ≤ st.upper) :
    utf8Step st b =
      if st.seen + 1 = st.needed then (Utf8State.init, [st.codepoint * 64 + b % 64])
      else (⟨st.codepoint * 64 + b % 64, st.needed, st.seen + 1, 128, 191⟩, []) := by
  unfold utf8Step
  rw [if_neg hn, if_neg (by omega)]

/-! ## Lemmas relating the pipeline to decoded texts -/

lemma chunkStep_accStep (s : Utf8State) (acc : Option (List Nat)) (bytes : List Nat) :
    chunkStep (s, acc) bytes =
      ((utf8DecodeChunk s bytes).1, accStep acc (utf8DecodeChunk s bytes).2) := by
  rw [chunkStep_eq]; unfold accStep; split <;> rfl

lemma utf8DecodeChunk_join (chunks : List (List Nat)) (s : Utf8State) :
    (utf8DecodeChunk s chunks.flatten).2 = (decodeTexts s chunks).flatten := by
  induction chunks generalizing s with
  | nil => simp [utf8DecodeChunk, decodeTexts]
  | cons c cs ih =>
    simp only [List.flatten_cons, decodeTexts]
    rw [utf8DecodeChunk_append]
    simp [ih]

lemma foldl_chunkStep_eq (chunks : List (List Nat)) (s : Utf8State)
    (acc : Option (List Nat)) :
    chunks.foldl chunkStep (s, acc) =
      ((utf8DecodeChunk s chunks.flatten).1, (decodeTexts s chunks).foldl accStep acc) := by
  induction chunks generalizing s acc with
  | nil => simp [utf8DecodeChunk, decodeTexts]
  | cons c cs ih =>
    simp only [List.foldl_cons, decodeTexts, List.flatten_cons]
    rw [chunkStep_accStep, ih, utf8DecodeChunk_append]

lemma hasNonWs_append (a b : List Nat) :
    hasNonWs (a ++ b) = (hasNonWs a || hasNonWs b) := by
  simp [hasNonWs, List.any_append]

lemma foldl_accStep_some (texts : List (List Nat)) (c : List Nat)
    (h : ∀ t ∈ texts, t = [] ∨ hasNonWs t = true) :
    texts.foldl accStep (some c) = some (c ++ texts.flatten) := by
  induction texts generalizing c with
  | nil => simp
  | cons t ts ih =>
    rcases h t (by simp) with ht | ht
    · subst ht
      have hstep : accStep (some c) [] = some c := by
        simp [accStep, hasNonWs]
      rw [List.foldl_cons, hstep, ih c (fun x hx => h x (by simp [hx]))]
      simp
    · have hstep : accStep (some c) t = some (c ++ t) := by
        simp [accStep, ht]
      rw [List.foldl_cons, hstep, ih (c ++ t) (fun x hx => h x (by simp [hx]))]
      simp [List.append_assoc]

lemma foldl_accStep_none (texts : List (List Nat))
    (h : ∀ t ∈ texts, t = [] ∨ hasNonWs t = true) :
    texts.foldl accStep none =
      if hasNonWs texts.flatten then some texts.flatten else none := by
  induction texts with
  | nil => simp [hasNonWs]
  | cons t ts ih =>
    rcases h t (by simp) with ht | ht
    · subst ht
      have hstep : accStep none [] = none := by simp [accStep, hasNonWs]
      rw [List.foldl_cons, hstep, ih (fun x hx => h x (by simp [hx]))]
      simp
    · have hstep : accStep none t = some t := by simp [accStep, ht]
      rw [List.foldl_cons, hstep,
        foldl_accStep_some ts t (fun x hx => h x (by simp [hx]))]
      rw [if_pos]
      · simp
      · rw [List.flatten_cons, hasNonWs_append, ht]
        simp

/-- A lone lead byte of a three-byte sequence plus one admissible
continuation byte, fed from a clean decoder state, produce no output at all:
the bytes stay buried in the carry-over state. -/
lemma utf8DecodeChunk_pair_incomplete (s : Utf8State) (b1 b2 : Nat)
    (hs : s.needed = 0) (h1 : 224 ≤ b1) (h2 : b1 ≤ 239)
    (hlo : (if b1 = 224 then 160 else 128) ≤ b2)
    (hhi : b2 ≤ if b1 = 237 then 159 else 191) :
    (utf8DecodeChunk s [b1, b2]).2 = [] := by
  have s1 : utf8Step s b1 = (⟨b1 % 16, 2, 0, if b1 = 224 then 160 else 128,
      if b1 = 237 then 159 else 191⟩, []) := by
    rw [utf8Step_clean _ _ hs, utf8Start_lead3 _ h1 h2]
  have s2 : utf8Step ⟨b1 % 16, 2, 0, if b1 = 224 then 160 else 128,
      if b1 = 237 then 159 else 191⟩ b2 =
      (⟨(b1 % 16) * 64 + b2 % 64, 2, 1, 128, 191⟩, []) := by
    rw [utf8Step_cont _ _ (by show (2 : Nat) ≠ 0; omega) hlo hhi,
      if_neg (by show ¬(0 + 1 = 2); omega)]
  simp only [utf8DecodeChunk_cons, utf8DecodeChunk_nil, s1, s2, List.append_nil,
    List.nil_append]

/-- The incremental decoder inverts the standard UTF-8 encoder on every
Unicode scalar value of two or more bytes, ending back in the clean state. -/
lemma utf8DecodeChunk_encode (cp : Nat) (h1 : 128 ≤ cp) (h2 : cp ≤ 1114111)
    (h3 : cp < 55296 ∨ 57343 < cp) :
    utf8DecodeChunk Utf8State.init (utf8Encode cp) = (Utf8State.init, [cp]) := by
  rcases Nat.lt_or_ge cp 2048 with hc | hc
  · have he : utf8Encode cp = [192 + cp / 64, 128 + cp % 64] := by
      unfold utf8Encode
      rw [if_neg (by omega), if_pos (by omega)]
    have s1 : utf8Step Utf8State.init (192 + cp / 64) =
        (⟨(192 + cp / 64) % 32, 1, 0, 128, 191⟩, []) := by
      rw [utf8Step_clean _ _ rfl, utf8Start_lead2 _ (by omega) (by omega)]
    have s2 : utf8Step ⟨(192 + cp / 64) % 32, 1, 0, 128, 191⟩ (128 + cp % 64) =
        (Utf8State.init, [((192 + cp / 64) % 32) * 64 + (128 + cp % 64) % 64]) := by
      rw [utf8Step_cont _ _ (by show (1 : Nat) ≠ 0; omega)
        (by show 128 ≤ 128 + cp % 64; omega) (by show 128 + cp % 64 ≤ 191; omega),
        if_pos (by show 0 + 1 = 1; rfl)]
    simp only [he, utf8DecodeChunk_cons, utf8DecodeChunk_nil, s1, s2,
      List.append_nil, List.nil_append, Prod.mk.injEq, List.cons.injEq, and_true,
      true_and]
    omega
  rcases Nat.lt_or_ge cp 65536 with hc2 | hc2
  · have he : utf8Encode cp = [224 + cp / 4096, 128 + cp / 64 % 64, 128 + cp % 64] := by
      unfold utf8Encode
      rw [if_neg (by omega), if_neg (by omega), if_pos (by omega)]
    have s1 : utf8Step Utf8State.init (224 + cp / 4096) =
        (⟨(224 + cp / 4096) % 16, 2, 0,
          if 224 + cp / 4096 = 224 then 160 else 128,
          if 224 + cp / 4096 = 237 then 159 else 191⟩, []) := by
      rw [utf8Step_clean _ _ rfl, utf8Start_lead3 _ (by omega) (by omega)]
    have s2 : utf8Step ⟨(224 + cp / 4096) % 16, 2, 0,
        if 224 + cp / 4096 = 224 then 160 else 128,
        if 224 + cp / 4096 = 237 then 159 else 191⟩ (128 + cp / 64 % 64) =
        (⟨((224 + cp / 4096) % 16) * 64 + (128 + cp / 64 % 64) % 64, 2, 1, 128, 191⟩,
         []) := by
      rw [utf8Step_cont _ _ (by show (2 : Nat) ≠ 0; omega)
        (by show (if 224 + cp / 4096 = 224 then 160 else 128) ≤ 128 + cp / 64 % 64
            split_ifs with h <;> omega)
        (by show 128 + cp / 64 % 64 ≤ if 224 + cp / 4096 = 237 then 159 else 191
            split_ifs with h <;> omega),
        if_neg (by show ¬(0 + 1 = 2); omega)]
    have s3 : utf8Step ⟨((224 + cp / 4096) % 16) * 64 + (128 + cp / 64 % 64) % 64,
        2, 1, 128, 191⟩ (128 + cp % 64) =
        (Utf8State.init,
         [(((224 + cp / 4096) % 16) * 64 + (128 + cp / 64 % 64) % 64) * 64 +
          (128 + cp % 64) % 64]) := by
      rw [utf8Step_cont _ _ (by show (2 : Nat) ≠ 0; omega)
        (by show 128 ≤ 128 + cp % 64; omega) (by show 128 + cp % 64 ≤ 191; omega),
        if_pos (by show 1 + 1 = 2; rfl)]
    simp only [he, utf8DecodeChunk_cons, utf8DecodeChunk_nil, s1, s2, s3,
      List.append_nil, List.nil_append, Prod.mk.injEq, List.cons.injEq, and_true,
      true_and]
    omega
  · have he : utf8Encode cp =
        [240 + cp / 262144, 128 + cp / 4096 % 64, 128 + cp / 64 % 64, 128 + cp % 64] := by
      unfold utf8Encode
      rw [if_neg (by omega), if_neg (by omega), if_neg (by omega)]
    have s1 : utf8Step Utf8State.init (240 + cp / 262144) =
        (⟨(240 + cp / 262144) % 8, 3, 0,
          if 240 + cp / 262144 = 240 then 144 else 128,
          if 240 + cp / 262144 = 244 then 143 else 191⟩, []) := by
      rw [utf8Step_clean _ _ rfl, utf8Start_lead4 _ (by omega) (by omega)]
    have s2 : utf8Step ⟨(240 + cp / 262144) % 8, 3, 0,
        if 240 + cp / 262144 = 240 then 144 else 128,
        if 240 + cp / 262144 = 244 then 143 else 191⟩ (128 + cp / 4096 % 64) =
        (⟨((240 + cp / 262144) % 8) * 64 + (128 + cp / 4096 % 64) % 64, 3, 1, 128, 191⟩,
         []) := by
      rw [utf8Step_cont _ _ (by show (3 : Nat) ≠ 0; omega)
        (by show (if 240 + cp / 262144 = 240 then 144 else 128) ≤ 128 + cp / 4096 % 64
            split_ifs with h <;> omega)
        (by show 128 + cp / 4096 % 64 ≤ if 240 + cp / 262144 = 244 then 143 else 191
            split_ifs with h <;> omega),
        if_neg (by show ¬(0 + 1 = 3); omega)]
    have s3 : utf8Step ⟨((240 + cp / 262144) % 8) * 64 + (128 + cp / 4096 % 64) % 64,
        3, 1, 128, 191⟩ (128 + cp / 64 % 64) =
        (⟨(((240 + cp / 262144) % 8) * 64 + (128 + cp / 4096 % 64) % 64) * 64 +
          (128 + cp / 64 % 64) % 64, 3, 2, 128, 191⟩, []) := by
      rw [utf8Step_cont _ _ (by show (3 : Nat) ≠ 0; omega)
        (by show 128 ≤ 128 + cp / 64 % 64; omega)
        (by show 128 + cp / 64 % 64 ≤ 191; omega),
        if_neg (by show ¬(1 + 1 = 3); omega)]
    have s4 : utf8Step ⟨(((240 + cp / 262144) % 8) * 64 + (128 + cp / 4096 % 64) % 64) *
        64 + (128 + cp / 64 % 64) % 64, 3, 2, 128, 191⟩ (128 + cp % 64) =
        (Utf8State.init,
         [((((240 + cp / 262144) % 8) * 64 + (128 + cp / 4096 % 64) % 64) * 64 +
           (128 + cp / 64 % 64) % 64) * 64 + (128 + cp % 64) % 64]) := by
      rw [utf8Step_cont _ _ (by show (3 : Nat) ≠ 0; omega)
        (by show 128 ≤ 128 + cp % 64; omega) (by show 128 + cp % 64 ≤ 191; omega),
        if_pos (by show 2 + 1 = 3; rfl)]
    simp only [he, utf8DecodeChunk_cons, utf8DecodeChunk_nil, s1, s2, s3, s4,
      List.append_nil, List.nil_append, Prod.mk.injEq, List.cons.injEq, and_true,
      true_and]
    omega

/-! ## Freshness bookkeeping and the error path -/

lemma fresh_append_user (now : Nat) (log : List ChatMessage) (u : ChatMessage)
    (hfresh : (now + 1) ∉ log.map (fun m => m.id)) (hu : u.id = now) :
    (now + 1) ∉ (log ++ [u]).map (fun m => m.id) := by
  simp only [List.map_append, List.mem_append, List.map_cons, List.map_nil,
    List.mem_singleton]
  rintro (h | h)
  · exact hfresh h
  · rw [hu] at h
    omega

lemma errorUpdate_emit (now : Nat) (log : List ChatMessage) (acc : Option (List Nat))
    (hfresh : (now + 1) ∉ log.map (fun m => m.id)) :
    errorUpdate now (aidOf now acc) (log ++ emitMsg now acc) =
      log ++ [⟨now + 1, Role.assistant, apologyText, now⟩] := by
  cases acc with
  | none => simp [errorUpdate, aidOf, emitMsg]
  | some c =>
    simp only [errorUpdate, aidOf, emitMsg, List.map_append]
    rw [map_update_id_not_mem _ _ _ hfresh]
    simp

/-! ## Unfolding lemmas for whole runs -/

lemma sendMessage_fetchError_eq (st : ChatState) (content : List Nat) (now : Nat)
    (hc : hasNonWs content = true) (hl : st.isLoading = false) :
    sendMessage st content now FetchResult.fetchError =
      ⟨(st.messages ++ [⟨now, Role.user, trimWs content, now⟩]) ++
        [⟨now + 1, Role.assistant, apologyText, now⟩], false, false⟩ := by
  simp [sendMessage, hc, hl, errorUpdate]

lemma sendMessage_stream_ok_eq (st : ChatState) (content : List Nat) (now : Nat)
    (chunks : List (List Nat))
    (hc : hasNonWs content = true) (hl : st.isLoading = false) :
    sendMessage st content now (FetchResult.stream chunks false) =
      ⟨(chunks.foldl (streamStep now) (Utf8State.init, none,
          st.messages ++ [⟨now, Role.user, trimWs content, now⟩])).2.2,
       false, false⟩ := by
  simp [sendMessage, hc, hl]

lemma sendMessage_stream_err_eq (st : ChatState) (content : List Nat) (now : Nat)
    (chunks : List (List Nat))
    (hc : hasNonWs content = true) (hl : st.isLoading = false) :
    sendMessage st content now (FetchResult.stream chunks true) =
      ⟨errorUpdate now
        (chunks.foldl (streamStep now) (Utf8State.init, none,
          st.messages ++ [⟨now, Role.user, trimWs content, now⟩])).2.1
        (chunks.foldl (streamStep now) (Utf8State.init, none,
          st.messages ++ [⟨now, Role.user, trimWs content, now⟩])).2.2,
       false, false⟩ := by
  simp [sendMessage, hc, hl]

end Clotho


namespace Clotho

/-- Claim C1: on any transport error — fetch failure, non-2xx status or
missing body (all thrown before streaming, modelled by
`FetchResult.fetchError`), or a read error mid-stream — the run yields
exactly one assistant message whose content is the fixed apology string: it
is appended fresh when no assistant message existed yet, and when partial
content had already been shown the content of the message is overwritten
entirely with the apology, discarding the partial text.  `sendMessage` is a
total function into `ChatState`, so no exception propagates to the
caller. -/
theorem sendMessage_transport_error_apology (st : ChatState) (content : List Nat)
    (now : Nat) (fr : FetchResult)
    (hc : hasNonWs content = true) (hl : st.isLoading = false)
    (hfresh : (now + 1) ∉ st.messages.map (fun m => m.id))
    (herr : fr = FetchResult.fetchError ∨
      ∃ chunks, fr = FetchResult.stream chunks true) :
    sendMessage st content now fr =
      ⟨st.messages ++ [⟨now, Role.user, trimWs content, now⟩,
        ⟨now + 1, Role.assistant, apologyText, now⟩], false, false⟩ := by
  have hf1 := fresh_append_user now st.messages
    ⟨now, Role.user, trimWs content, now⟩ hfresh rfl
  rcases herr with h | ⟨chunks, h⟩ <;> subst h
  · rw [sendMessage_fetchError_eq st content now hc hl]
    simp
  · rw [sendMessage_stream_err_eq st content now chunks hc hl,
      streamFold_run now chunks _ hf1]
    simp only []
    rw [errorUpdate_emit now _ (pipelineAcc chunks) hf1]
    simp

/-- Witness for C1: a concrete run with partial content "Hi" followed by a
read error ends with the user message plus one assistant message holding
exactly the apology text. -/
theorem sendMessage_transport_error_apology_witness :
    sendMessage ⟨[], false, false⟩ [104, 105] 7
        (FetchResult.stream [[72, 105]] true) =
      ⟨[⟨7, Role.user, trimWs [104, 105], 7⟩,
        ⟨7 + 1, Role.assistant, apologyText, 7⟩], false, false⟩ := by
  have h := sendMessage_transport_error_apology ⟨[], false, false⟩ [104, 105] 7
    (FetchResult.stream [[72, 105]] true) (by decide) rfl (by decide)
    (Or.inr ⟨[[72, 105]], rfl⟩)
  simpa using h

/-- Claim C2 (counterexample): chunk-boundary invariance fails on the code.
The text "a b" fed as one chunk yields content "a b", but split as
["a", " ", "b"] the whitespace-only middle chunk is dropped by the
`chunk.trim()` guard and the final content is "ab". -/
theorem chunk_invariance_counterexample :
    ([[97], [32], [98]] : List (List Nat)).flatten = [97, 32, 98] ∧
    pipelineAcc [[97], [32], [98]] ≠ pipelineAcc [[97, 32, 98]] := by decide

/-- Claim C2 (amended): chunk-boundary invariance holds provided no chunk
decodes to a non-empty whitespace-only text: splitting inside a multi-byte
character is harmless (such a chunk decodes to the empty string), but a
chunk decoding to whitespace only is dropped by the code. -/
theorem chunk_invariance_no_ws_chunks (chunks : List (List Nat))
    (h : ∀ t ∈ decodeTexts Utf8State.init chunks, t = [] ∨ hasNonWs t = true) :
    pipelineAcc chunks = pipelineAcc [chunks.flatten] := by
  unfold pipelineAcc
  rw [foldl_chunkStep_eq, foldl_accStep_none _ h]
  rw [show ([chunks.flatten] : List (List Nat)).foldl chunkStep
      (Utf8State.init, none) = chunkStep (Utf8State.init, none) chunks.flatten
      from rfl]
  rw [chunkStep_accStep]
  simp only [accStep, Option.getD_none, List.nil_append]
  rw [utf8DecodeChunk_join]

/-- Witness for the amended C2: the split ["h", " !"] (second chunk carries
a non-whitespace character) gives the same content as the unsplit text. -/
theorem chunk_invariance_no_ws_chunks_witness :
    pipelineAcc [[104], [32, 33]] =
      pipelineAcc [([[104], [32, 33]] : List (List Nat)).flatten] :=
  chunk_invariance_no_ws_chunks [[104], [32, 33]] (by decide)

/-- Claim C3: the assistant message is created lazily.  While every chunk so
far decoded to empty or whitespace-only text (`pipelineAcc pre = none`), the
log is untouched and no assistant message id exists; on the first chunk
whose decoded text has a non-whitespace character, a new message appears at
the end of the log, with fresh id `now + 1`, timestamp `now`, and content
exactly the decoded text of that chunk. -/
theorem lazy_message_creation (now : Nat) (log : List ChatMessage)
    (pre : List (List Nat)) (c : List Nat)
    (hfresh : (now + 1) ∉ log.map (fun m => m.id))
    (hpre : pipelineAcc pre = none)
    (hc : hasNonWs (utf8DecodeChunk
      (pre.foldl chunkStep (Utf8State.init, none)).1 c).2 = true) :
    (pre.foldl (streamStep now) (Utf8State.init, none, log)).2.2 = log ∧
    (pre.foldl (streamStep now) (Utf8State.init, none, log)).2.1 = none ∧
    ((pre ++ [c]).foldl (streamStep now) (Utf8State.init, none, log)).2.2 =
      log ++ [⟨now + 1, Role.assistant,
        (utf8DecodeChunk (pre.foldl chunkStep (Utf8State.init, none)).1 c).2,
        now⟩] := by
  have hrun := streamFold_run now pre log hfresh
  rw [hpre] at hrun
  simp only [aidOf, emitMsg, List.append_nil] at hrun
  refine ⟨by rw [hrun], by rw [hrun], ?_⟩
  rw [List.foldl_append, hrun]
  simp only [List.foldl_cons, List.foldl_nil]
  rw [streamStep_create now _ log c hc]

/-- Witness for C3: after a whitespace-only chunk nothing exists; the chunk
"hi" then creates the message with content "hi". -/
theorem lazy_message_creation_witness :
    (([[32]] : List (List Nat)).foldl (streamStep 0)
      (Utf8State.init, none, [])).2.2 = [] ∧
    (([[32]] : List (List Nat)).foldl (streamStep 0)
      (Utf8State.init, none, [])).2.1 = none ∧
    (([[32]] ++ [[104, 105]]).foldl (streamStep 0)
      (Utf8State.init, none, [])).2.2 =
      [] ++ [⟨0 + 1, Role.assistant,
        (utf8DecodeChunk (([[32]] : List (List Nat)).foldl chunkStep
          (Utf8State.init, none)).1 [104, 105]).2, 0⟩] :=
  lazy_message_creation 0 [] [[32]] [104, 105] (by decide) (by decide) (by decide)

/-- Claim C4: one run creates exactly zero or one assistant message: the
final log is either the starting log unchanged, or the starting log with a
single assistant message appended; later content events only ever update
that one message in place. -/
theorem at_most_one_assistant_message (now : Nat) (log : List ChatMessage)
    (chunks : List (List Nat))
    (hfresh : (now + 1) ∉ log.map (fun m => m.id)) :
    (chunks.foldl (streamStep now) (Utf8State.init, none, log)).2.2 = log ∨
    ∃ c, (chunks.foldl (streamStep now) (Utf8State.init, none, log)).2.2 =
      log ++ [⟨now + 1, Role.assistant, c, now⟩] := by
  rw [streamFold_run now chunks log hfresh]
  cases pipelineAcc chunks with
  | none => left; simp [emitMsg]
  | some c => right; exact ⟨c, by simp [emitMsg]⟩

/-- Witness for C4 at a concrete two-chunk run. -/
theorem at_most_one_assistant_message_witness :
    (([[104], [105]] : List (List Nat)).foldl (streamStep 0)
      (Utf8State.init, none, [])).2.2 = [] ∨
    ∃ c, (([[104], [105]] : List (List Nat)).foldl (streamStep 0)
      (Utf8State.init, none, [])).2.2 =
      [] ++ [⟨0 + 1, Role.assistant, c, 0⟩] :=
  at_most_one_assistant_message 0 [] [[104], [105]] (by decide)

/-- Claim C5 (counterexample): the code never calls the decoder with
`isFinal = true`.  A stream whose last chunk ends in the incomplete
two-byte prefix of a three-byte character decodes to nothing at all — no
replacement character U+FFFD is emitted and no message is created; the
trailing bytes are silently dropped, contradicting the claimed flush. -/
theorem final_flush_counterexample :
    (utf8DecodeChunk Utf8State.init [226, 130]).2 = [] ∧
    pipelineAcc [[226, 130]] = none := by decide

/-- Claim C5 (amended): the decoder is only ever invoked in streaming mode
and never flushed at stream end, so a trailing incomplete multi-byte
sequence (lead byte plus admissible continuation byte, arriving after any
cleanly-decoded prefix) contributes nothing to the final content. -/
theorem no_final_flush_drops_trailing (chunks : List (List Nat)) (b1 b2 : Nat)
    (hstate : (chunks.foldl chunkStep (Utf8State.init, none)).1.needed = 0)
    (h1 : 224 ≤ b1) (h2 : b1 ≤ 239)
    (hlo : (if b1 = 224 then 160 else 128) ≤ b2)
    (hhi : b2 ≤ if b1 = 237 then 159 else 191) :
    pipelineAcc (chunks ++ [[b1, b2]]) = pipelineAcc chunks := by
  unfold pipelineAcc
  rw [List.foldl_append]
  simp only [List.foldl_cons, List.foldl_nil]
  rw [show chunks.foldl chunkStep (Utf8State.init, none) =
      ((chunks.foldl chunkStep (Utf8State.init, none)).1,
       (chunks.foldl chunkStep (Utf8State.init, none)).2) from rfl]
  rw [chunkStep_accStep,
    utf8DecodeChunk_pair_incomplete _ _ _ hstate h1 h2 hlo hhi]
  simp [accStep, hasNonWs]

/-- Witness for the amended C5: after the chunk "h", the trailing incomplete
pair E2 82 leaves the content unchanged. -/
theorem no_final_flush_drops_trailing_witness :
    pipelineAcc ([[104]] ++ [[226, 130]]) = pipelineAcc [[104]] :=
  no_final_flush_drops_trailing [[104]] 226 130 (by decide) (by decide)
    (by decide) (by decide) (by decide)

/-- Claim C6: plain-text mode, no Done event exists; chunks "Hello " then
"world" followed by stream end leave a finalized run (both flags false)
whose assistant message content is exactly "Hello world" — no buffered
content is lost. -/
theorem plaintext_stream_end_scenario :
    sendMessage ⟨[], false, false⟩ [104, 105] 10
        (FetchResult.stream [[72, 101, 108, 108, 111, 32],
          [119, 111, 114, 108, 100]] false) =
      ⟨[⟨10, Role.user, [104, 105], 10⟩,
        ⟨11, Role.assistant,
          [72, 101, 108, 108, 111, 32, 119, 111, 114, 108, 100], 10⟩],
       false, false⟩ := by decide

/-- Claim C7: a multi-byte UTF-8 character split across a chunk boundary at
any position decodes to exactly the original scalar value — never a
replacement character, never dropped — because the decoder state carries the
partial sequence across the boundary. -/
theorem utf8_split_roundtrip (cp k : Nat) (h1 : 128 ≤ cp) (h2 : cp ≤ 1114111)
    (h3 : cp < 55296 ∨ 57343 < cp) :
    (utf8DecodeChunk Utf8State.init ((utf8Encode cp).take k)).2 ++
      (utf8DecodeChunk (utf8DecodeChunk Utf8State.init ((utf8Encode cp).take k)).1
        ((utf8Encode cp).drop k)).2 = [cp] := by
  have h := utf8DecodeChunk_append ((utf8Encode cp).take k)
    ((utf8Encode cp).drop k) Utf8State.init
  rw [List.take_append_drop, utf8DecodeChunk_encode cp h1 h2 h3] at h
  exact (congrArg Prod.snd h).symm

/-- Witness for C7: the euro sign U+20AC (E2 82 AC) split as [E2] then
[82 AC]. -/
theorem utf8_split_roundtrip_witness :
    (utf8DecodeChunk Utf8State.init ((utf8Encode 8364).take 1)).2 ++
      (utf8DecodeChunk (utf8DecodeChunk Utf8State.init
        ((utf8Encode 8364).take 1)).1 ((utf8Encode 8364).drop 1)).2 = [8364] :=
  utf8_split_roundtrip 8364 1 (by omega) (by omega) (Or.inl (by omega))

/-- Claim C8: in the plain-text loop every decoded unit with a
non-whitespace character is appended verbatim (untrimmed) to the assistant
content, creating it on first content; an empty or whitespace-only unit is
ignored and leaves the observable state — assistant id and conversation
log — exactly unchanged. -/
theorem plaintext_event_semantics (now : Nat) (s : Utf8State) (aid : Option Nat)
    (acc : Option (List Nat)) (log : List ChatMessage) (bytes : List Nat) :
    (chunkStep (s, acc) bytes).2 =
      (if hasNonWs (utf8DecodeChunk s bytes).2 then
        some (acc.getD [] ++ (utf8DecodeChunk s bytes).2) else acc) ∧
    (hasNonWs (utf8DecodeChunk s bytes).2 = false →
      streamStep now (s, aid, log) bytes =
        ((utf8DecodeChunk s bytes).1, aid, log)) := by
  constructor
  · rw [chunkStep_eq]; split <;> rfl
  · intro h; exact streamStep_ws now s aid log bytes h

/-- Witness for C8: a whitespace-only chunk leaves log and id unchanged, and
a content chunk is appended verbatim. -/
theorem plaintext_event_semantics_witness :
    streamStep 3 (Utf8State.init, some 4, []) [32] = (Utf8State.init, some 4, []) ∧
    (chunkStep (Utf8State.init, some [104]) [32, 105]).2 = some [104, 32, 105] := by
  constructor
  · have h := (plaintext_event_semantics 3 Utf8State.init (some 4) none [] [32]).2
      (by decide)
    simpa using h
  · have h := (plaintext_event_semantics 3 Utf8State.init (some 4) (some [104])
      [] [32, 105]).1
    rw [h]
    decide

/-- Claim C9: throughout every run — streaming, clean end or error path —
every pre-existing message of the conversation log is preserved unchanged
(same id, role, content, timestamp, same position), the trimmed user message
is appended after them, and the only further change is at most one assistant
message (the streaming one, id `now + 1`) at the end of the log. -/
theorem sendMessage_frame_preservation (st : ChatState) (content : List Nat)
    (now : Nat) (fr : FetchResult)
    (hc : hasNonWs content = true) (hl : st.isLoading = false)
    (hfresh : (now + 1) ∉ st.messages.map (fun m => m.id)) :
    ∃ rest, (sendMessage st content now fr).messages =
        st.messages ++ ⟨now, Role.user, trimWs content, now⟩ :: rest ∧
      (rest = [] ∨ ∃ c, rest = [⟨now + 1, Role.assistant, c, now⟩]) := by
  have hf1 := fresh_append_user now st.messages
    ⟨now, Role.user, trimWs content, now⟩ hfresh rfl
  cases fr with
  | fetchError =>
    refine ⟨[⟨now + 1, Role.assistant, apologyText, now⟩], ?_,
      Or.inr ⟨apologyText, rfl⟩⟩
    rw [sendMessage_fetchError_eq st content now hc hl]
    simp
  | stream chunks re =>
    cases re with
    | true =>
      refine ⟨[⟨now + 1, Role.assistant, apologyText, now⟩], ?_,
        Or.inr ⟨apologyText, rfl⟩⟩
      rw [sendMessage_stream_err_eq st content now chunks hc hl,
        streamFold_run now chunks _ hf1]
      simp only []
      rw [errorUpdate_emit now _ (pipelineAcc chunks) hf1]
      simp
    | false =>
      rw [sendMessage_stream_ok_eq st content now chunks hc hl,
        streamFold_run now chunks _ hf1]
      cases pipelineAcc chunks with
      | none => exact ⟨[], by simp [emitMsg], Or.inl rfl⟩
      | some c =>
        exact ⟨[⟨now + 1, Role.assistant, c, now⟩], by simp [emitMsg],
          Or.inr ⟨c, rfl⟩⟩

/-- Witness for C9 on a concrete streaming run over a non-empty prior log. -/
theorem sendMessage_frame_preservation_witness :
    ∃ rest, (sendMessage ⟨[⟨1, Role.assistant, [72], 1⟩], false, false⟩
        [104] 7 (FetchResult.stream [[33]] false)).messages =
        [⟨1, Role.assistant, [72], 1⟩] ++ ⟨7, Role.user, trimWs [104], 7⟩ :: rest ∧
      (rest = [] ∨ ∃ c, rest = [⟨7 + 1, Role.assistant, c, 7⟩]) :=
  sendMessage_frame_preservation ⟨[⟨1, Role.assistant, [72], 1⟩], false, false⟩
    [104] 7 (FetchResult.stream [[33]] false) (by decide) rfl (by decide)

/-- Claim C10: a call with whitespace-only (or empty) input, or made while a
previous request is still loading, is a no-op: the returned state is the
input state, so no message is appended and no flag changes. -/
theorem sendMessage_noop_guard (st : ChatState) (content : List Nat) (now : Nat)
    (fr : FetchResult)
    (h : hasNonWs content = false ∨ st.isLoading = true) :
    sendMessage st content now fr = st := by
  unfold sendMessage
  rcases h with h | h <;> simp [h]

/-- Witness for C10: a whitespace-only input is ignored even though a
transport error would follow. -/
theorem sendMessage_noop_guard_witness :
    sendMessage ⟨[], false, false⟩ [32, 9] 5 FetchResult.fetchError =
      ⟨[], false, false⟩ :=
  sendMessage_noop_guard ⟨[], false, false⟩ [32, 9] 5 FetchResult.fetchError
    (Or.inl (by decide))

end Clotho
